import Mathlib

/-!
A shallow embedding of `src/.github/workflows/UpProxy.js` (the IPDB
aggregation–filter–publish pipeline) and proofs about it.

JavaScript numbers are modelled as `Option Int`: `some n` is an exact
integer value, `none` is NaN.  `parseInt` is modelled as exact (the
double rounding of integers above 2^53 is not modelled; no claim below
depends on such inputs).  The abstract machine operations `ToInt32` and
`ToUint32` are modelled explicitly; a bitwise shift uses its right
operand modulo 32, exactly as the ECMAScript operators do.
-/

namespace UpProxy

/-- ECMAScript `ToInt32` on an exact integer: reduce mod 2^32 into
[-2^31, 2^31). -/
def int32 (n : Int) : Int := (n + 2 ^ 31) % 2 ^ 32 - 2 ^ 31

/-- The `ToInt32` conversion on a JS number; NaN converts to 0. -/
def jsToInt32 : Option Int → Int
  | none => 0
  | some n => int32 n

/-- The `ToUint32` conversion on a JS number, as a natural number in
[0, 2^32); NaN
converts to 0. -/
def toUint32 : Option Int → Nat
  | none => 0
  | some n => (n % 2 ^ 32).toNat

/-- JS `+` on two numbers (both operands already numeric). -/
def jsAdd : Option Int → Option Int → Option Int
  | some x, some y => some (x + y)
  | _, _ => none

/-- JS `-` on two numbers. -/
def jsSub : Option Int → Option Int → Option Int
  | some x, some y => some (x - y)
  | _, _ => none

/-- JS `<<`: `ToInt32` of the left operand shifted by `ToUint32` of the
right operand taken mod 32, the result reduced to Int32. -/
def jsShl (a b : Option Int) : Option Int :=
  some (int32 (jsToInt32 a * 2 ^ (toUint32 b % 32)))

/-- JS `~`: bitwise complement of `ToInt32` of the operand. -/
def jsNot (a : Option Int) : Option Int :=
  some (-(jsToInt32 a) - 1)

/-- Split a character list at every occurrence of `sep`
(JS `String.prototype.split` with a single-character separator). -/
def splitChar (sep : Char) : List Char → List (List Char)
  | [] => [[]]
  | c :: cs =>
    if c = sep then [] :: splitChar sep cs
    else
      match splitChar sep cs with
      | [] => [[c]]
      | r :: rs => (c :: r) :: rs

/-- Value of a decimal digit list, most significant first. -/
def digitsVal (l : List Char) : Nat :=
  l.foldl (fun a c => a * 10 + (c.toNat - 48)) 0

/-- Accumulating scan of a leading run of decimal digits
(the digit-consuming loop inside `parseInt`). -/
def takeDigitsVal (acc : Nat) : List Char → Nat
  | [] => acc
  | c :: cs => if c.isDigit then takeDigitsVal (acc * 10 + (c.toNat - 48)) cs else acc

/-- The digit phase of `parseInt`: NaN (`none`) when the first character is
not a decimal digit, otherwise the value of the longest digit run. -/
def parseIntCore : List Char → Option Nat
  | [] => none
  | c :: cs => if c.isDigit then some (takeDigitsVal (c.toNat - 48) cs) else none

/-- The sign-and-digits phase of `parseInt` after whitespace has been
skipped. -/
def parseIntAfterWS : List Char → Option Int
  | [] => none
  | c :: cs =>
    if c = '-' then (parseIntCore cs).map (fun n => -(n : Int))
    else if c = '+' then (parseIntCore cs).map (fun n => (n : Int))
    else (parseIntCore (c :: cs)).map (fun n => (n : Int))

/-- JS `parseInt(s, 10)`: skip leading whitespace, read an optional
sign, then the longest prefix of decimal digits; NaN if there are no
digits. -/
def parseIntChars (l : List Char) : Option Int :=
  parseIntAfterWS (l.dropWhile Char.isWhitespace)

/-- The function `ipToLong` (UpProxy.js lines 36-39) on a character list:
`ipString.split('.').reduce((res, octet) => (res << 8) + parseInt(octet, 10), 0) >>> 0`. -/
def ipToLongL (l : List Char) : Nat :=
  toUint32 ((splitChar '.' l).foldl
    (fun res oct => jsAdd (jsShl res (some 8)) (parseIntChars oct)) (some 0))

/-- The function `ipToLong` (UpProxy.js lines 36-39). -/
def ipToLong (s : String) : Nat := ipToLongL s.toList

/-- The mask expression of `isIpInCidr` (UpProxy.js line 49):
`~((1 << (32 - parseInt(bits, 10))) - 1) >>> 0`, as a function of the
parsed prefix-length number. -/
def maskOf (bits : Option Int) : Nat :=
  toUint32 (jsNot (jsSub (jsShl (some 1) (jsSub (some 32) bits)) (some 1)))

/-- The call `parseInt(bits, 10)` where `bits` may be `undefined` (when the cidr
string contains no `/`, the destructuring leaves `bits` undefined and
`parseInt(undefined, 10)` is NaN). -/
def parseIntOpt : Option (List Char) → Option Int
  | some b => parseIntChars b
  | none => none

/-- The function `isIpInCidr` (UpProxy.js lines 47-54) on character lists.  The final
`===` compares two Int32 values whose bit patterns are those of the
unsigned values below, so it is modelled as equality of unsigned
bitwise ANDs. -/
def isIpInCidrL (ip cidr : List Char) : Bool :=
  let parts := splitChar '/' cidr
  let range := parts.headD []
  let bits : Option Int := parseIntOpt parts[1]?
  let mask := maskOf bits
  let ipLong := ipToLongL ip
  let rangeLong := ipToLongL range
  decide ((ipLong &&& mask) = (rangeLong &&& mask))

/-- The function `isIpInCidr` (UpProxy.js lines 47-54). -/
def isIpInCidr (ip cidr : String) : Bool := isIpInCidrL ip.toList cidr.toList

/-- A well-formed address segment: a nonempty run of decimal digits
whose value is at most 255. -/
def isOctet (l : List Char) : Prop :=
  l ≠ [] ∧ (∀ c ∈ l, c.isDigit) ∧ digitsVal l ≤ 255

instance (l : List Char) : Decidable (isOctet l) := by
  unfold isOctet
  infer_instance

/-- The character list `s₁.s₂.s₃.s₄` of a dotted-quad address. -/
def dottedQuad (s1 s2 s3 s4 : List Char) : List Char :=
  s1 ++ '.' :: (s2 ++ '.' :: (s3 ++ '.' :: s4))

/-- The fixed excluded-range list `bannedCidrs` (UpProxy.js lines 10-26). -/
def bannedCidrs : List String :=
  ["101.x.x.x/15",
   "141.101.64.0/18",
   "172.64.0.0/13",
   "162.158.0.0/15",
   "104.16.0.0/13",
   "104.24.0.0/14",
   "173.245.48.0/20",
   "103.21.244.0/22",
   "103.22.200.0/22",
   "103.31.4.0/22",
   "188.114.96.0/20",
   "190.93.240.0/20",
   "197.234.240.0/22",
   "198.41.128.0/17",
   "131.0.72.0/22"]

/-- The per-range loop body of the filter callback (UpProxy.js lines
206-217): for each CIDR in order, evaluate the membership test; a thrown
error (`Except.error`) or a `true` result excludes the address
(`return false`); only when every range tests `false` is the address
kept.  The test function is abstract so the `catch` arm is embedded
faithfully. -/
def keepIpLoop (test : String → String → Except String Bool) (ip : String) :
    List String → Bool
  | [] => true
  | c :: cs =>
    match test ip c with
    | .error _ => false
    | .ok true => false
    | .ok false => keepIpLoop test ip cs

/-- The membership test actually installed in the filter loop.  Every
operation evaluated by `isIpInCidr` (string split, `parseInt`, the
arithmetic and bitwise operators) is a total JS primitive that cannot
throw, so the test always returns normally. -/
def cidrTest (ip cidr : String) : Except String Bool :=
  .ok (isIpInCidr ip cidr)

/-- The filter step (UpProxy.js lines 204-219):
`Array.from(ipSet).filter(ip => ...)` with the loop above over
`bannedCidrs`. -/
def filterIps (ips : List String) : List String :=
  ips.filter (fun ip => keepIpLoop cidrTest ip bannedCidrs)

/-- Split a character list at every line terminator, matching the JS
`fileContent.split(/\r?\n/)` of UpProxy.js line 187: a terminator is a
bare `\n` or the pair `\r\n`; a `\r` not followed by `\n` is ordinary
text. -/
def splitLinesChar : List Char → List (List Char)
  | [] => [[]]
  | '\n' :: cs => [] :: splitLinesChar cs
  | '\r' :: '\n' :: cs => [] :: splitLinesChar cs
  | c :: cs =>
    match splitLinesChar cs with
    | [] => [[c]]
    | r :: rs => (c :: r) :: rs

/-- The lines of one text blob (UpProxy.js line 187). -/
def splitLinesJS (s : String) : List String :=
  (splitLinesChar s.toList).map (fun l => String.mk l)

/-- Insertion into the JS `Set` (UpProxy.js line 190), modelled as an
insertion-ordered duplicate-free list: adding a present element is a
no-op, a new element goes to the back. -/
def addIp (acc : List String) (ip : String) : List String :=
  if ip ∈ acc then acc else acc ++ [ip]

/-- The per-line body of the collector (UpProxy.js lines 187-192):
trim, drop the line if empty, otherwise insert into the set. -/
def collectStep (acc : List String) (line : String) : List String :=
  if line.trim = "" then acc else addIp acc line.trim

/-- The collector (UpProxy.js lines 179-200): fold every line of every
blob into the set, in file order. -/
def collectList (files : List String) : List String :=
  files.foldl (fun acc content => (splitLinesJS content).foldl collectStep acc) []

/-- The trimmed non-empty lines of all blobs, in order, duplicates
kept. -/
def trimmedLines (files : List String) : List String :=
  ((files.flatMap splitLinesJS).map String.trim).filter (fun l => l ≠ "")

/-- The destructuring swap `[a[i], a[j]] = [a[j], a[i]]` (UpProxy.js
line 227).  In every call made by the shuffle loop both indices are in
bounds, so the guard is never taken on the `else` side there. -/
def swapList {α : Type _} (l : List α) (i j : Nat) : List α :=
  if h : i < l.length ∧ j < l.length then
    (l.set i (l.get ⟨j, h.2⟩)).set j (l.get ⟨i, h.1⟩)
  else l

/-- The Fisher-Yates loop of UpProxy.js lines 225-228, counting the
index down from its first argument to 1; `rand i` is the drawn index
`j = Math.floor(Math.random() * (i + 1))` at iteration `i`. -/
def shuffleGo {α : Type _} (rand : Nat → Nat) : Nat → List α → List α
  | 0, l => l
  | i + 1, l => shuffleGo rand i (swapList l (i + 1) (rand (i + 1)))

/-- The shuffle step (UpProxy.js lines 225-228), starting the loop at
`filteredIps.length - 1`. -/
def shuffle {α : Type _} (rand : Nat → Nat) (l : List α) : List α :=
  shuffleGo rand (l.length - 1) l

/-- The network requests the run can issue: the archive download
(UpProxy.js line 144), the existing-file SHA lookup (line 94) and the
contents PUT (line 122). -/
inductive NetEv
  | download
  | shaLookup
  | remoteWrite
deriving DecidableEq

/-- Outcome of the SHA lookup `axios.get` (UpProxy.js lines 92-107):
the response carried a `sha` field, the request failed with status 404,
or it failed some other way. -/
inductive LookupResult
  | found (sha : String)
  | notFound
  | otherError

/-- The PUT request body built at UpProxy.js lines 110-117. -/
structure Payload where
  message : String
  content : String
  sha : Option String

/-- Observable outcome of a run: the network requests issued in order,
the PUT body if a PUT was issued, and `some code` if `process.exit`
terminated the run (with `none` meaning the function returned
normally, so the process exits 0). -/
structure RunOut where
  events : List NetEv
  payload : Option Payload
  exitCode : Option Nat

/-- JS truthiness of an environment variable (`undefined` and the empty
string are falsy). -/
def truthyStr : Option String → Bool
  | none => false
  | some s => s ≠ ""

/-- The `existingFileSha` variable after the lookup (UpProxy.js lines
91-107): initialized to `""`, set only when the response carries a
truthy `sha`; every error (404 or otherwise) leaves it `""`. -/
def existingShaOf : LookupResult → String
  | .found s => if s = "" then "" else s
  | .notFound => ""
  | .otherError => ""

/-- The commit message (UpProxy.js line 66). -/
def commitMessage (repoPath time : String) (ipCount : Nat) : String :=
  "Update " ++ repoPath ++ " - " ++ time ++ " (Total IPs: " ++ toString ipCount ++ ")"

/-- The function `uploadToGitHub` (UpProxy.js lines 62-131): check the environment
(exit 1 when the token or the repository coordinate is falsy, before
any request), issue the SHA lookup, build the payload — including a
`sha` field exactly when `existingFileSha` is truthy — and issue the
PUT (exit 1 on failure).  The Base64 transport encoding of the content
is abstracted as the identity. -/
def uploadToGitHub (token repository : Option String) (fileContent : String)
    (repoPath time : String) (ipCount : Nat) (lookup : LookupResult)
    (putOk : Bool) : RunOut :=
  if !truthyStr token || !truthyStr repository then
    { events := [], payload := none, exitCode := some 1 }
  else
    let sha := existingShaOf lookup
    let payload : Payload :=
      { message := commitMessage repoPath time ipCount
        content := fileContent
        sha := if sha ≠ "" then some sha else none }
    { events := [.shaLookup, .remoteWrite]
      payload := some payload
      exitCode := if putOk then none else some 1 }

/-- The function `main` (UpProxy.js lines 134-275) at the granularity the claims
need: the download request is issued first and a failure exits 1; an
extraction failure exits 1; the collector, filter and shuffle run on
the extracted blobs; a local-write failure exits 1; then
`uploadToGitHub` runs with the length of the shuffled list as the count. -/
def mainRun (token repository : Option String) (downloadOk extractOk : Bool)
    (files : List String) (rand : Nat → Nat) (localWriteOk : Bool)
    (time : String) (lookup : LookupResult) (putOk : Bool) : RunOut :=
  if !downloadOk then
    { events := [.download], payload := none, exitCode := some 1 }
  else if !extractOk then
    { events := [.download], payload := none, exitCode := some 1 }
  else
    let ips := collectList files
    let filteredIps := filterIps ips
    let shuffled := shuffle rand filteredIps
    if !localWriteOk then
      { events := [.download], payload := none, exitCode := some 1 }
    else
      let u := uploadToGitHub token repository (String.intercalate "\n" shuffled)
        "BestProxy/bestproxy.txt" time shuffled.length lookup putOk
      { events := .download :: u.events, payload := u.payload, exitCode := u.exitCode }

theorem keepIpLoop_eq_false_of_match {test : String → String → Except String Bool}
    {ip c : String} {cs : List String} (hc : c ∈ cs)
    (h : test ip c = .ok true ∨ ∃ e, test ip c = .error e) :
    keepIpLoop test ip cs = false := by
  induction cs with
  | nil => cases hc
  | cons d ds ih =>
    rcases List.mem_cons.mp hc with rfl | hmem
    · rcases h with h | ⟨e, h⟩ <;> simp [keepIpLoop, h]
    · unfold keepIpLoop
      rcases htest : test ip d with e | b
      · rfl
      · cases b
        · simpa using ih hmem
        · rfl

theorem keepIpLoop_total (ip : String) (cs : List String) :
    keepIpLoop cidrTest ip cs = cs.all (fun c => !(isIpInCidr ip c)) := by
  induction cs with
  | nil => rfl
  | cons d ds ih =>
    unfold keepIpLoop
    rcases hm : isIpInCidr ip d with _ | _ <;>
      simp [cidrTest, hm, ih, List.all_cons]

end UpProxy

namespace UpProxy

/-- C1: the spec requires a range of prefix length 0 to match every
well-formed address (mask all zero bits); the code instead evaluates
`1 << 32` as `1 << 0 = 1` (JS shift counts are taken mod 32), so the
computed mask is all one bits and `isIpInCidr` on a `/0` range only
accepts addresses equal to the base.  Evaluated at the failing input. -/
theorem zero_prefix_mask_bug :
    isIpInCidr "1.2.3.4" "0.0.0.0/0" = false ∧
      isIpInCidr "0.0.0.1" "0.0.0.0/0" = false ∧
      maskOf (some 0) = 4294967295 := by
  refine ⟨by decide, by decide, by decide⟩

/-- C3 (filter soundness): an address that matches some range of
`bannedCidrs` under `isIpInCidr` does not occur in the output of the
filter step. -/
theorem filter_soundness (ips : List String) (ip r : String)
    (hr : r ∈ bannedCidrs) (hmatch : isIpInCidr ip r = true) :
    ip ∉ filterIps ips := by
  intro hmem
  have hkeep := (List.mem_filter.mp hmem).2
  rw [keepIpLoop_eq_false_of_match hr (Or.inl (by simp [cidrTest, hmatch]))] at hkeep
  exact Bool.false_ne_true hkeep

/-- Witness for C3 at the example given in the spec: `103.21.245.10` matches
`103.21.244.0/22` and is excluded. -/
theorem filter_soundness_witness :
    "103.21.244.0/22" ∈ bannedCidrs ∧
      isIpInCidr "103.21.245.10" "103.21.244.0/22" = true ∧
      "103.21.245.10" ∉ filterIps ["103.21.245.10", "8.8.8.8"] :=
  ⟨by decide, by decide,
    filter_soundness ["103.21.245.10", "8.8.8.8"] "103.21.245.10" "103.21.244.0/22"
      (by decide) (by decide)⟩

/-- C9 (filter idempotence): applying the filter step to its own output
changes nothing — no removals and no reordering. -/
theorem filter_idempotent (ips : List String) :
    filterIps (filterIps ips) = filterIps ips := by
  unfold filterIps
  rw [List.filter_filter]
  simp

/-- C6 (fail-closed): in the filter loop, if the membership test of an
address against some banned range evaluates to an error, the address is
excluded (the loop returns `false` whether or not any range matched),
and the filter itself — a total function — continues with the rest of
the run. -/
theorem filter_fail_closed (test : String → String → Except String Bool)
    (ip r e : String) (hr : r ∈ bannedCidrs) (herr : test ip r = .error e)
    (ips : List String) :
    keepIpLoop test ip bannedCidrs = false ∧
      ip ∉ ips.filter (fun a => keepIpLoop test a bannedCidrs) := by
  have hloop := keepIpLoop_eq_false_of_match hr (Or.inr ⟨e, herr⟩)
  refine ⟨hloop, fun hmem => ?_⟩
  have hkeep := (List.mem_filter.mp hmem).2
  rw [hloop] at hkeep
  exact Bool.false_ne_true hkeep

/-- Witness for C6 with a test that throws on the first banned range. -/
theorem filter_fail_closed_witness :
    (fun (_ _ : String) => (Except.error "bad" : Except String Bool)) "9.9.9.9" "101.x.x.x/15"
        = .error "bad" ∧
      "101.x.x.x/15" ∈ bannedCidrs ∧
      keepIpLoop (fun _ _ => .error "bad") "9.9.9.9" bannedCidrs = false ∧
      "9.9.9.9" ∉ ["9.9.9.9"].filter
        (fun a => keepIpLoop (fun _ _ => (Except.error "bad" : Except String Bool)) a bannedCidrs) := by
  have h := filter_fail_closed (fun _ _ => .error "bad") "9.9.9.9" "101.x.x.x/15" "bad"
    (by decide) rfl ["9.9.9.9"]
  exact ⟨rfl, by decide, h.1, h.2⟩

/-- C10: the JS membership machinery is total — `ipToLong` and
`isIpInCidr` evaluate without throwing on every string input, so the
catch arm of the filter never fires and the loop over the real test equals
the pure all-ranges check; malformed segments are judged by their
aliased integer value (`parseInt` NaN is normalized to integer 0 by
`>>> 0`, and out-of-range octets carry into higher bit positions, so
`1.2.3.256` aliases `1.2.4.0`). -/
theorem filter_total_no_throw :
    (∀ ip cs, keepIpLoop cidrTest ip cs = cs.all (fun c => !(isIpInCidr ip c))) ∧
      (∀ ips, filterIps ips
        = ips.filter (fun ip => bannedCidrs.all (fun c => !(isIpInCidr ip c)))) ∧
      ipToLong "abc" = 0 ∧
      ipToLong "1.2.3.256" = ipToLong "1.2.4.0" := by
  refine ⟨keepIpLoop_total, fun ips => ?_, by decide, by decide⟩
  unfold filterIps
  simp only [keepIpLoop_total]

theorem mem_addIp {acc : List String} {ip x : String} :
    x ∈ addIp acc ip ↔ x ∈ acc ∨ x = ip := by
  by_cases h : ip ∈ acc
  · simp only [addIp, if_pos h]
    constructor
    · exact Or.inl
    · rintro (hx | rfl)
      · exact hx
      · exact h
  · simp [addIp, if_neg h]

theorem nodup_addIp {acc : List String} {ip : String} (h : acc.Nodup) :
    (addIp acc ip).Nodup := by
  by_cases hm : ip ∈ acc
  · simpa [addIp, hm] using h
  · simp [addIp, hm, List.nodup_append, h]

theorem mem_foldl_collectStep (lines : List String) :
    ∀ (acc : List String) (x : String),
      x ∈ lines.foldl collectStep acc ↔
        x ∈ acc ∨ x ∈ (lines.map String.trim).filter (fun l => l ≠ "") := by
  induction lines with
  | nil => simp
  | cons a ls ih =>
    intro acc x
    rw [List.foldl_cons, ih]
    by_cases h : a.trim = ""
    · simp [collectStep, h]
    · simp [collectStep, h, mem_addIp, or_assoc]

theorem nodup_foldl_collectStep (lines : List String) :
    ∀ acc : List String, acc.Nodup → (lines.foldl collectStep acc).Nodup := by
  induction lines with
  | nil => exact fun _ h => h
  | cons a ls ih =>
    intro acc hacc
    rw [List.foldl_cons]
    refine ih _ ?_
    unfold collectStep
    split
    · exact hacc
    · exact nodup_addIp hacc

theorem collectList_eq_foldl (files : List String) :
    collectList files = (files.flatMap splitLinesJS).foldl collectStep [] := by
  suffices h : ∀ acc,
      files.foldl (fun acc content => (splitLinesJS content).foldl collectStep acc) acc
        = (files.flatMap splitLinesJS).foldl collectStep acc from h []
  induction files with
  | nil => intro acc; rfl
  | cons f fs ih =>
    intro acc
    simp only [List.foldl_cons, List.flatMap_cons, List.foldl_append]
    exact ih _

theorem mem_collectList (files : List String) (x : String) :
    x ∈ collectList files ↔ x ∈ trimmedLines files := by
  rw [collectList_eq_foldl, mem_foldl_collectStep]
  simp [trimmedLines]

theorem nodup_collectList (files : List String) : (collectList files).Nodup := by
  rw [collectList_eq_foldl]
  exact nodup_foldl_collectStep _ [] List.nodup_nil

/-- C7 (dedup): the collected set is duplicate-free, contains exactly
the distinct trimmed non-empty lines appearing across all blobs, its
cardinality is the number of distinct such lines, and that cardinality
depends only on the multiset of input lines, not on how they are split
across blobs or repeated. -/
theorem collector_dedup (files : List String) :
    (collectList files).Nodup ∧
      (∀ a, a ∈ collectList files ↔ a ∈ trimmedLines files) ∧
      (collectList files).length = (trimmedLines files).dedup.length ∧
      (∀ files2, (files.flatMap splitLinesJS).Perm (files2.flatMap splitLinesJS) →
        (collectList files2).length = (collectList files).length) := by
  have hlen : ∀ fs : List String,
      (collectList fs).length = (trimmedLines fs).dedup.length := by
    intro fs
    have hperm : (collectList fs).Perm (trimmedLines fs).dedup := by
      rw [List.perm_ext_iff_of_nodup (nodup_collectList fs) (List.nodup_dedup _)]
      intro a
      rw [mem_collectList, List.mem_dedup]
    exact hperm.length_eq
  refine ⟨nodup_collectList files, mem_collectList files, hlen files, ?_⟩
  intro files2 hp
  rw [hlen files, hlen files2]
  exact (((hp.map String.trim).filter (fun l => decide (l ≠ ""))).dedup.length_eq).symm

theorem cons_get_set_perm {α : Type _} (l : List α) (k : Nat) (hk : k < l.length) (a : α) :
    (l.get ⟨k, hk⟩ :: l.set k a).Perm (a :: l) := by
  induction l generalizing k with
  | nil => simp at hk
  | cons b t ih =>
    cases k with
    | zero => simpa using List.Perm.swap a b t
    | succ k =>
      have hk' : k < t.length := by simpa using hk
      show (t.get ⟨k, hk'⟩ :: b :: t.set k a).Perm (a :: b :: t)
      exact (List.Perm.swap b (t.get ⟨k, hk'⟩) (t.set k a)).trans
        (((ih k hk').cons b).trans (List.Perm.swap a b t))

theorem swapList_perm {α : Type _} (l : List α) (i j : Nat) : (swapList l i j).Perm l := by
  unfold swapList
  split
  · rename_i h
    obtain ⟨hi, hj⟩ := h
    have hj1 : j < (l.set i (l.get ⟨j, hj⟩)).length := by simpa using hj
    have hget : (l.set i (l.get ⟨j, hj⟩)).get ⟨j, hj1⟩ = l.get ⟨j, hj⟩ := by
      by_cases hij : i = j
      · subst hij
        simp
      · simp [List.get_eq_getElem, List.getElem_set_ne hij]
    have h1 := cons_get_set_perm (l.set i (l.get ⟨j, hj⟩)) j hj1 (l.get ⟨i, hi⟩)
    have h2 := cons_get_set_perm l i hi (l.get ⟨j, hj⟩)
    rw [hget] at h1
    exact (h1.trans h2).cons_inv
  · exact List.Perm.refl l

theorem shuffleGo_perm {α : Type _} (rand : Nat → Nat) :
    ∀ (n : Nat) (l : List α), (shuffleGo rand n l).Perm l
  | 0, l => List.Perm.refl l
  | n + 1, l =>
    (shuffleGo_perm rand n _).trans (swapList_perm l (n + 1) (rand (n + 1)))

/-- C8 (permutation property): for every length and every sequence of
draws `rand i ∈ [0, i]` (as produced by
`Math.floor(Math.random() * (i + 1))`), the shuffle step returns a
permutation of its input: same elements as a multiset and the same
length. -/
theorem shuffle_perm {α : Type _} (rand : Nat → Nat) (l : List α)
    (hr : ∀ i, rand i ≤ i) :
    (shuffle rand l).Perm l ∧ (shuffle rand l).length = l.length ∧
      (↑(shuffle rand l) : Multiset α) = (↑l : Multiset α) := by
  have hp : (shuffle rand l).Perm l := shuffleGo_perm rand (l.length - 1) l
  exact ⟨hp, hp.length_eq, Multiset.coe_eq_coe.mpr hp⟩

/-- Witness for C8 at a concrete list and the all-zero draw sequence. -/
theorem shuffle_perm_witness :
    (∀ i : Nat, (fun _ : Nat => 0) i ≤ i) ∧
      ((shuffle (fun _ => 0) ["a", "b", "c"]).Perm ["a", "b", "c"] ∧
        (shuffle (fun _ => 0) ["a", "b", "c"]).length = (["a", "b", "c"] : List String).length ∧
        (↑(shuffle (fun _ => 0) ["a", "b", "c"]) : Multiset String)
          = (↑(["a", "b", "c"] : List String) : Multiset String)) :=
  ⟨fun i => Nat.zero_le i,
    shuffle_perm (fun _ => 0) ["a", "b", "c"] (fun i => Nat.zero_le i)⟩

/-- C2 as stated is false: with the credential absent from the
environment the run still issues the archive-download request, because
the configuration check sits at the top of `uploadToGitHub`, which main
only calls after the download, extraction, collection, filtering and
local write.  Concretely, with `GITHUB_TOKEN` unset the trace contains
the download event and ends in exit code 1. -/
theorem config_check_after_download :
    NetEv.download ∈ (mainRun none (some "owner/repo") true true [] (fun _ => 0) true
        "2026-01-01 00:00:00" .notFound true).events ∧
      (mainRun none (some "owner/repo") true true [] (fun _ => 0) true
        "2026-01-01 00:00:00" .notFound true).exitCode = some 1 := by
  exact ⟨by decide, by decide⟩

/-- C2 amended: if the credential or the store coordinate is missing
(or empty), every run terminates with exit code 1 and never issues the
remote revision lookup or the remote write; the archive download may
already have been issued, since the check runs only at the start of
the publish step. -/
theorem config_missing_exits_before_store
    (token repository : Option String) (downloadOk extractOk : Bool)
    (files : List String) (rand : Nat → Nat) (localWriteOk : Bool)
    (time : String) (lookup : LookupResult) (putOk : Bool)
    (h : truthyStr token = false ∨ truthyStr repository = false) :
    (mainRun token repository downloadOk extractOk files rand localWriteOk
        time lookup putOk).exitCode = some 1 ∧
      NetEv.shaLookup ∉ (mainRun token repository downloadOk extractOk files rand
        localWriteOk time lookup putOk).events ∧
      NetEv.remoteWrite ∉ (mainRun token repository downloadOk extractOk files rand
        localWriteOk time lookup putOk).events := by
  rcases h with h | h <;>
    cases downloadOk <;> cases extractOk <;> cases localWriteOk <;>
      simp [mainRun, uploadToGitHub, h]

/-- Witness for the amended C2: token unset, everything else
succeeding. -/
theorem config_missing_exits_witness :
    (truthyStr none = false ∨ truthyStr (some "owner/repo") = false) ∧
      ((mainRun none (some "owner/repo") true true ["1.2.3.4"] (fun _ => 0) true
          "t" .notFound true).exitCode = some 1 ∧
        NetEv.shaLookup ∉ (mainRun none (some "owner/repo") true true ["1.2.3.4"]
          (fun _ => 0) true "t" .notFound true).events ∧
        NetEv.remoteWrite ∉ (mainRun none (some "owner/repo") true true ["1.2.3.4"]
          (fun _ => 0) true "t" .notFound true).events) :=
  ⟨Or.inl rfl,
    config_missing_exits_before_store none (some "owner/repo") true true ["1.2.3.4"]
      (fun _ => 0) true "t" .notFound true (Or.inl rfl)⟩

/-- C5 (publish token discipline): when the lookup finds an existing
resource with a (nonempty) revision token, the PUT payload carries
exactly that token in its `sha` field; when the lookup reports 404, the
payload carries no token. -/
theorem publish_token_discipline
    (token repository : Option String) (content repoPath time : String)
    (cnt : Nat) (tok : String) (putOk putOk2 : Bool)
    (htok : truthyStr token = true) (hrepo : truthyStr repository = true)
    (hT : tok ≠ "") :
    (uploadToGitHub token repository content repoPath time cnt (.found tok)
        putOk).payload.map Payload.sha = some (some tok) ∧
      (uploadToGitHub token repository content repoPath time cnt .notFound
        putOk2).payload.map Payload.sha = some none := by
  simp [uploadToGitHub, existingShaOf, htok, hrepo, hT]

/-- Witness for C5 at a concrete environment and token. -/
theorem publish_token_discipline_witness :
    (truthyStr (some "tk") = true ∧ truthyStr (some "owner/repo") = true ∧
        "0a1b2c" ≠ "") ∧
      ((uploadToGitHub (some "tk") (some "owner/repo") "1.2.3.4" "BestProxy/bestproxy.txt"
          "t" 1 (.found "0a1b2c") true).payload.map Payload.sha = some (some "0a1b2c") ∧
        (uploadToGitHub (some "tk") (some "owner/repo") "1.2.3.4" "BestProxy/bestproxy.txt"
          "t" 1 .notFound true).payload.map Payload.sha = some none) :=
  ⟨⟨by decide, by decide, by decide⟩,
    publish_token_discipline (some "tk") (some "owner/repo") "1.2.3.4"
      "BestProxy/bestproxy.txt" "t" 1 "0a1b2c" true true (by decide) (by decide) (by decide)⟩

theorem toList_mk (l : List Char) : (String.mk l).toList = l := rfl

theorem splitChar_of_not_mem {sep : Char} {l : List Char} (h : sep ∉ l) :
    splitChar sep l = [l] := by
  induction l with
  | nil => rfl
  | cons c cs ih =>
    have hc : ¬(c = sep) := fun e => h (e ▸ List.mem_cons_self c cs)
    have hcs : sep ∉ cs := fun m => h (List.mem_cons_of_mem _ m)
    unfold splitChar
    rw [if_neg hc, ih hcs]

theorem splitChar_append {sep : Char} {l1 l2 : List Char} (h : sep ∉ l1) :
    splitChar sep (l1 ++ sep :: l2) = l1 :: splitChar sep l2 := by
  induction l1 with
  | nil =>
    show splitChar sep (sep :: l2) = [] :: splitChar sep l2
    simp [splitChar]
  | cons c cs ih =>
    have hc : ¬(c = sep) := fun e => h (e ▸ List.mem_cons_self c cs)
    have hcs : sep ∉ cs := fun m => h (List.mem_cons_of_mem _ m)
    show splitChar sep (c :: (cs ++ sep :: l2)) = (c :: cs) :: splitChar sep l2
    simp only [splitChar]
    rw [if_neg hc, ih hcs]

theorem isDigit_char_facts {c : Char} (h : c.isDigit) :
    ¬(c = '.') ∧ ¬(c = '/') ∧ ¬(c = '-') ∧ ¬(c = '+') ∧ c.isWhitespace = false := by
  refine ⟨fun e => ?_, fun e => ?_, fun e => ?_, fun e => ?_, ?_⟩
  · subst e; exact absurd h (by decide)
  · subst e; exact absurd h (by decide)
  · subst e; exact absurd h (by decide)
  · subst e; exact absurd h (by decide)
  · by_contra hw
    rw [Bool.not_eq_false] at hw
    simp only [Char.isWhitespace, Bool.or_eq_true, decide_eq_true_eq] at hw
    rcases hw with ((rfl | rfl) | rfl) | rfl <;> exact absurd h (by decide)

theorem takeDigitsVal_eq_foldl {l : List Char} (hd : ∀ c ∈ l, c.isDigit) :
    ∀ acc, takeDigitsVal acc l = l.foldl (fun a c => a * 10 + (c.toNat - 48)) acc := by
  induction l with
  | nil => intro acc; rfl
  | cons c cs ih =>
    intro acc
    unfold takeDigitsVal
    rw [if_pos (hd c (List.mem_cons_self c cs)), List.foldl_cons,
      ih (fun d hdm => hd d (List.mem_cons_of_mem _ hdm))]

theorem parseIntChars_digits {l : List Char} (hne : l ≠ [])
    (hd : ∀ c ∈ l, c.isDigit) :
    parseIntChars l = some ((digitsVal l : Nat) : Int) := by
  obtain ⟨c, cs, rfl⟩ : ∃ c cs, l = c :: cs := by
    cases l with
    | nil => exact absurd rfl hne
    | cons c cs => exact ⟨c, cs, rfl⟩
  have hcd : c.isDigit := hd c (List.mem_cons_self c cs)
  obtain ⟨hdot, hslash, hminus, hplus, hws⟩ := isDigit_char_facts hcd
  unfold parseIntChars
  rw [List.dropWhile_cons, if_neg (by simp [hws])]
  simp only [parseIntAfterWS]
  rw [if_neg hminus, if_neg hplus]
  simp only [parseIntCore]
  rw [if_pos hcd]
  have : takeDigitsVal (c.toNat - 48) cs
      = cs.foldl (fun a d => a * 10 + (d.toNat - 48)) (c.toNat - 48) :=
    takeDigitsVal_eq_foldl (fun d hdm => hd d (List.mem_cons_of_mem _ hdm)) _
  rw [this]
  unfold digitsVal
  rw [List.foldl_cons]
  simp

theorem digits_not_dot {l : List Char} (hd : ∀ c ∈ l, c.isDigit) :
    ('.' : Char) ∉ l :=
  fun hm => (isDigit_char_facts (hd _ hm)).1 rfl

theorem digits_not_slash {l : List Char} (hd : ∀ c ∈ l, c.isDigit) :
    ('/' : Char) ∉ l :=
  fun hm => (isDigit_char_facts (hd _ hm)).2.1 rfl

theorem splitChar_dottedQuad {a1 a2 a3 a4 : List Char}
    (hd1 : ∀ c ∈ a1, c.isDigit) (hd2 : ∀ c ∈ a2, c.isDigit)
    (hd3 : ∀ c ∈ a3, c.isDigit) (hd4 : ∀ c ∈ a4, c.isDigit) :
    splitChar '.' (dottedQuad a1 a2 a3 a4) = [a1, a2, a3, a4] := by
  unfold dottedQuad
  rw [splitChar_append (digits_not_dot hd1), splitChar_append (digits_not_dot hd2),
    splitChar_append (digits_not_dot hd3), splitChar_of_not_mem (digits_not_dot hd4)]

theorem slash_not_mem_dottedQuad {a1 a2 a3 a4 : List Char}
    (hd1 : ∀ c ∈ a1, c.isDigit) (hd2 : ∀ c ∈ a2, c.isDigit)
    (hd3 : ∀ c ∈ a3, c.isDigit) (hd4 : ∀ c ∈ a4, c.isDigit) :
    ('/' : Char) ∉ dottedQuad a1 a2 a3 a4 := by
  intro hm
  unfold dottedQuad at hm
  simp only [List.mem_append, List.mem_cons] at hm
  have hslash : ¬(('/' : Char) = '.') := by decide
  rcases hm with hm | hm | hm | hm | hm | hm | hm
  · exact digits_not_slash hd1 hm
  · exact hslash hm
  · exact digits_not_slash hd2 hm
  · exact hslash hm
  · exact digits_not_slash hd3 hm
  · exact hslash hm
  · exact digits_not_slash hd4 hm

theorem int32_small {n : Int} (h1 : 0 ≤ n) (h2 : n < 2 ^ 31) : int32 n = n := by
  unfold int32
  rw [Int.emod_eq_of_lt (by omega) (by omega)]
  omega

theorem js_pack (v1 v2 v3 v4 : Nat) (b1 : v1 ≤ 255) (b2 : v2 ≤ 255)
    (b3 : v3 ≤ 255) (b4 : v4 ≤ 255) :
    toUint32 (jsAdd (jsShl (jsAdd (jsShl (jsAdd (jsShl (jsAdd (jsShl (some 0) (some 8))
        (some ((v1 : Int)))) (some 8)) (some ((v2 : Int)))) (some 8)) (some ((v3 : Int))))
        (some 8)) (some ((v4 : Int))))
      = v1 * 2 ^ 24 + v2 * 2 ^ 16 + v3 * 2 ^ 8 + v4 := by
  have h8 : (2 : Int) ^ (toUint32 (some 8) % 32) = 256 := by decide
  simp only [jsShl, jsAdd, jsToInt32, h8]
  rw [show int32 (int32 (0 : Int) * 256) = 0 from by decide]
  rw [show int32 (0 + (v1 : Int)) = 0 + (v1 : Int) from int32_small (by omega) (by omega)]
  rw [show int32 ((0 + (v1 : Int)) * 256) = (0 + (v1 : Int)) * 256 from
    int32_small (by omega) (by omega)]
  rw [show int32 ((0 + (v1 : Int)) * 256 + (v2 : Int)) = (0 + (v1 : Int)) * 256 + (v2 : Int) from
    int32_small (by omega) (by omega)]
  rw [show int32 (((0 + (v1 : Int)) * 256 + (v2 : Int)) * 256)
      = ((0 + (v1 : Int)) * 256 + (v2 : Int)) * 256 from
    int32_small (by omega) (by omega)]
  rw [show int32 (((0 + (v1 : Int)) * 256 + (v2 : Int)) * 256 + (v3 : Int))
      = ((0 + (v1 : Int)) * 256 + (v2 : Int)) * 256 + (v3 : Int) from
    int32_small (by omega) (by omega)]
  simp only [toUint32, int32]
  omega

theorem ipToLongL_quad {a1 a2 a3 a4 : List Char}
    (h1 : isOctet a1) (h2 : isOctet a2) (h3 : isOctet a3) (h4 : isOctet a4) :
    ipToLongL (dottedQuad a1 a2 a3 a4)
      = digitsVal a1 * 2 ^ 24 + digitsVal a2 * 2 ^ 16 + digitsVal a3 * 2 ^ 8 + digitsVal a4 := by
  obtain ⟨hne1, hd1, hb1⟩ := h1
  obtain ⟨hne2, hd2, hb2⟩ := h2
  obtain ⟨hne3, hd3, hb3⟩ := h3
  obtain ⟨hne4, hd4, hb4⟩ := h4
  unfold ipToLongL
  rw [splitChar_dottedQuad hd1 hd2 hd3 hd4]
  simp only [List.foldl_cons, List.foldl_nil]
  rw [parseIntChars_digits hne1 hd1, parseIntChars_digits hne2 hd2,
    parseIntChars_digits hne3 hd3, parseIntChars_digits hne4 hd4]
  exact js_pack (digitsVal a1) (digitsVal a2) (digitsVal a3) (digitsVal a4) hb1 hb2 hb3 hb4

theorem maskOf_prefix_eq (p : Nat) (hp1 : 1 ≤ p) (hp2 : p ≤ 32) :
    maskOf (some ((p : Nat) : Int)) = 2 ^ 32 - 2 ^ (32 - p) := by
  interval_cases p <;> decide

/-- C4 (packing and masking rule): for a well-formed dotted-quad
address (four digit segments with values at most 255), `ipToLong` packs
the segment values most-significant-first, and for a well-formed base
and a prefix length between 1 and 32, `isIpInCidr` answers true exactly
when address and base agree under the mask with the top `p` bits set
(the value `2^32 - 2^(32-p)`). -/
theorem ip_packing_and_mask_rule
    (a1 a2 a3 a4 b1 b2 b3 b4 ps : List Char) (p : Nat)
    (h1 : isOctet a1) (h2 : isOctet a2) (h3 : isOctet a3) (h4 : isOctet a4)
    (h5 : isOctet b1) (h6 : isOctet b2) (h7 : isOctet b3) (h8 : isOctet b4)
    (h9 : ps ≠ []) (h10 : ∀ c ∈ ps, c.isDigit) (h11 : digitsVal ps = p)
    (h12 : 1 ≤ p) (h13 : p ≤ 32) :
    ipToLong (String.mk (dottedQuad a1 a2 a3 a4))
        = digitsVal a1 * 2 ^ 24 + digitsVal a2 * 2 ^ 16 + digitsVal a3 * 2 ^ 8 + digitsVal a4 ∧
      (isIpInCidr (String.mk (dottedQuad a1 a2 a3 a4))
          (String.mk (dottedQuad b1 b2 b3 b4 ++ '/' :: ps)) = true ↔
        ipToLong (String.mk (dottedQuad a1 a2 a3 a4)) &&& (2 ^ 32 - 2 ^ (32 - p))
          = ipToLong (String.mk (dottedQuad b1 b2 b3 b4)) &&& (2 ^ 32 - 2 ^ (32 - p))) := by
  constructor
  · show ipToLongL (dottedQuad a1 a2 a3 a4) = _
    exact ipToLongL_quad h1 h2 h3 h4
  · obtain ⟨hne5, hd5, _⟩ := h5
    obtain ⟨hne6, hd6, _⟩ := h6
    obtain ⟨hne7, hd7, _⟩ := h7
    obtain ⟨hne8, hd8, _⟩ := h8
    have hsplit : splitChar '/' (dottedQuad b1 b2 b3 b4 ++ '/' :: ps)
        = [dottedQuad b1 b2 b3 b4, ps] := by
      rw [splitChar_append (slash_not_mem_dottedQuad hd5 hd6 hd7 hd8),
        splitChar_of_not_mem (digits_not_slash h10)]
    simp only [isIpInCidr, isIpInCidrL, toList_mk, hsplit]
    simp only [List.headD, List.getElem?_cons_succ, List.getElem?_cons_zero, parseIntOpt]
    simp only [parseIntChars_digits h9 h10, h11, maskOf_prefix_eq p h12 h13]
    simp only [ipToLong, toList_mk, decide_eq_true_eq]

/-- Witness for C4 at `103.21.245.10` against `103.21.244.0/22`. -/
theorem ip_packing_and_mask_rule_witness :
    (isOctet ['1', '0', '3'] ∧ isOctet ['2', '1'] ∧ isOctet ['2', '4', '5'] ∧
        isOctet ['1', '0'] ∧ isOctet ['2', '4', '4'] ∧ isOctet ['0'] ∧
        (['2', '2'] : List Char) ≠ [] ∧ (∀ c ∈ (['2', '2'] : List Char), c.isDigit) ∧
        digitsVal ['2', '2'] = 22 ∧ 1 ≤ 22 ∧ 22 ≤ 32) ∧
      (ipToLong (String.mk (dottedQuad ['1', '0', '3'] ['2', '1'] ['2', '4', '5'] ['1', '0']))
          = digitsVal ['1', '0', '3'] * 2 ^ 24 + digitsVal ['2', '1'] * 2 ^ 16
            + digitsVal ['2', '4', '5'] * 2 ^ 8 + digitsVal ['1', '0'] ∧
        (isIpInCidr (String.mk (dottedQuad ['1', '0', '3'] ['2', '1'] ['2', '4', '5'] ['1', '0']))
            (String.mk (dottedQuad ['1', '0', '3'] ['2', '1'] ['2', '4', '4'] ['0']
              ++ '/' :: ['2', '2'])) = true ↔
          ipToLong (String.mk (dottedQuad ['1', '0', '3'] ['2', '1'] ['2', '4', '5'] ['1', '0']))
              &&& (2 ^ 32 - 2 ^ (32 - 22))
            = ipToLong (String.mk (dottedQuad ['1', '0', '3'] ['2', '1'] ['2', '4', '4'] ['0']))
              &&& (2 ^ 32 - 2 ^ (32 - 22)))) :=
  ⟨⟨by decide, by decide, by decide, by decide, by decide, by decide, by decide,
      by decide, by decide, by decide, by decide⟩,
    ip_packing_and_mask_rule ['1', '0', '3'] ['2', '1'] ['2', '4', '5'] ['1', '0']
      ['1', '0', '3'] ['2', '1'] ['2', '4', '4'] ['0'] ['2', '2'] 22
      (by decide) (by decide) (by decide) (by decide) (by decide) (by decide)
      (by decide) (by decide) (by decide) (by decide) (by decide) (by decide) (by decide)⟩

end UpProxy

example : UpProxy.ipToLong "1.2.3.4" = 16909060 := by decide
example : UpProxy.ipToLong "1.2.3.256" = 16909312 := by decide
example : UpProxy.ipToLong "1.2.4.0" = 16909312 := by decide
example : UpProxy.ipToLong "abc" = 0 := by decide
example : UpProxy.isIpInCidr "103.21.245.10" "103.21.244.0/22" = true := by decide
example : UpProxy.isIpInCidr "103.21.248.1" "103.21.244.0/22" = false := by decide
example : UpProxy.isIpInCidr "1.2.3.4" "0.0.0.0/0" = false := by decide
example : UpProxy.maskOf (some 0) = 4294967295 := by decide
example : UpProxy.maskOf (some 22) = 4294966272 := by decide
